import Mathlib

/-!
Verification development for the bazels3cache repository.

The in-memory LRU cache is embedded from src/memorycache.ts, the request
handling of the disk-staged asynchronous server from the async server source
(startServer), the synchronous server's PUT handler from src/server.ts, and
the backend pause bookkeeping from onAWSError / onAWSSuccess.

Buffers are modelled as lists of bytes (byteLength = list length).  The
cache's doubly linked recency list is modelled as a Lean list ordered from
most recently used (head) to least recently used (last); the `entries` map of
the source holds exactly the nodes of that list, so deleting the node stored
under a key corresponds to erasing the unique pair with that key from the
list.  The `while` loop of `_makeSpace` removes the tail while the cache is
nonempty and oversized; it removes one node per iteration, so running it with
`l.length` as fuel is exactly the loop.
-/

/-- Cache section of the configuration (config.cache in config.ts). -/
structure CacheConfig where
  enabled : Bool
  maxEntrySizeBytes : Nat
  maxTotalSizeBytes : Nat
deriving DecidableEq, Repr

/-- A byte buffer; `byteLength` is the list length. -/
abbrev Buffer := List Nat

/-- Sum of byteLengths of the resident entries (the `size` field of `Cache`,
which the source keeps incrementally and equals this sum). -/
def cacheSize (l : List (String × Buffer)) : Nat :=
  (l.map (fun p => p.2.length)).sum

/-- Remove the (unique) node stored under key `k` (`_deleteNode` applied to
`entries[k]`). -/
def eraseKey {α : Type} (k : String) : List (String × α) → List (String × α)
  | [] => []
  | p :: rest => if p.1 = k then rest else p :: eraseKey k rest

/-- Look up the node stored under key `k` (`this.entries[s3key]`). -/
def lookupKey {α : Type} (k : String) : List (String × α) → Option α
  | [] => none
  | p :: rest => if p.1 = k then some p.2 else lookupKey k rest

/-- The body of `_makeSpace`'s while loop:
`while (this.tail && this.size + newItemLength > this.config.maxTotalSizeBytes)
   this._deleteNode(this.tail);`
The tail of the recency list is the last element of the Lean list.  Each
iteration removes one node, so fuel `l.length` runs the loop to completion. -/
def makeSpaceLoop (maxTotal n : Nat) : Nat → List (String × Buffer) → List (String × Buffer)
  | 0, l => l
  | fuel + 1, l =>
    if l.length ≠ 0 ∧ maxTotal < cacheSize l + n then
      makeSpaceLoop maxTotal n fuel l.dropLast
    else l

/-- `Cache._makeSpace` from src/memorycache.ts. -/
def makeSpace (cfg : CacheConfig) (n : Nat) (l : List (String × Buffer)) :
    List (String × Buffer) :=
  if cfg.enabled then makeSpaceLoop cfg.maxTotalSizeBytes n l.length l else l

/-- The in-memory LRU cache (class `Cache` of src/memorycache.ts).  `nodes`
is the recency list, most recently used first. -/
structure Cache where
  config : CacheConfig
  nodes : List (String × Buffer)
deriving DecidableEq, Repr

/-- A freshly constructed cache (`new Cache(config)`). -/
def Cache.init (cfg : CacheConfig) : Cache := ⟨cfg, []⟩

/-- `Cache.contains`. -/
def Cache.contains (c : Cache) (k : String) : Bool :=
  (lookupKey k c.nodes).isSome

/-- `Cache.delete`: removes the entry if present, returns whether it existed. -/
def Cache.delete (c : Cache) (k : String) : Bool × Cache :=
  if (lookupKey k c.nodes).isSome then
    (true, { c with nodes := eraseKey k c.nodes })
  else
    (false, c)

/-- `Cache.maybeAdd`: when enabled, first deletes any entry for the key, then,
if the buffer is strictly smaller than maxEntrySizeBytes, makes space and
inserts the new node at the head of the recency list. -/
def Cache.maybeAdd (c : Cache) (k : String) (v : Buffer) : Cache :=
  if c.config.enabled then
    let c1 := (c.delete k).2
    if v.length < c.config.maxEntrySizeBytes then
      { c1 with nodes := (k, v) :: makeSpace c1.config v.length c1.nodes }
    else c1
  else c

/-- `Cache.get`: on a hit, `_moveNodeToHead` (delete the node, then
`maybeAdd` it back) and return the buffer; on a miss, return null. -/
def Cache.get (c : Cache) (k : String) : Option Buffer × Cache :=
  match lookupKey k c.nodes with
  | some v => (some v, Cache.maybeAdd { c with nodes := eraseKey k c.nodes } k v)
  | none => (none, c)

/-- One public cache operation (the operations the dispatcher performs). -/
inductive CacheOp
  | containsOp (k : String)
  | getOp (k : String)
  | addOp (k : String) (v : Buffer)
  | deleteOp (k : String)
deriving DecidableEq, Repr

/-- Apply one operation to the cache (keeping only the state). -/
def Cache.applyOp (c : Cache) : CacheOp → Cache
  | .containsOp _ => c
  | .getOp k => (c.get k).2
  | .addOp k v => c.maybeAdd k v
  | .deleteOp k => (c.delete k).2

/-- Run a sequence of cache operations. -/
def Cache.runOps (c : Cache) (ops : List CacheOp) : Cache :=
  ops.foldl Cache.applyOp c

/-- The cache invariant of the spec: total resident bytes bounded by
maxTotalSizeBytes, every resident entry strictly below maxEntrySizeBytes,
and at most one entry per key. -/
def CacheInv (c : Cache) : Prop :=
  cacheSize c.nodes ≤ c.config.maxTotalSizeBytes ∧
  (∀ p ∈ c.nodes, p.2.length < c.config.maxEntrySizeBytes) ∧
  (c.nodes.map Prod.fst).Nodup

/-- Async upload section of the configuration (config.asyncUpload). -/
structure AsyncUploadConfig where
  enabled : Bool
  maxPendingUploadMB : Nat
deriving DecidableEq, Repr

/-- The parts of the server configuration the request handlers read. -/
structure SrvConfig where
  allowOffline : Bool
  errorsBeforePausing : Nat
  pauseMinutes : Nat
  maxEntrySizeBytes : Nat
  allowGccDepfiles : Bool
  asyncUpload : AsyncUploadConfig
  cache : CacheConfig
deriving DecidableEq, Repr

/-- The pause duration in milliseconds (`config.pauseMinutes * 60 * 1000`). -/
def pauseMs (cfg : SrvConfig) : Nat := cfg.pauseMinutes * 60 * 1000

/-- An AWS error as the handlers inspect it: its HTTP status code (absent for
pure connectivity failures) and its `retryable` flag. -/
structure AwsErr where
  statusCode : Option Nat
  retryable : Bool
deriving DecidableEq, Repr

/-- The backend-access bookkeeping of startServer: the consecutive error
counter, the paused flag, and the fire instants of every pause timer that has
been scheduled and has not fired yet (onAWSError overwrites the
`awsPauseTimer` variable without cancelling an earlier timer, so several
timers can be pending at once). -/
structure AwsState where
  awsErrors : Nat
  awsPaused : Bool
  timers : List Nat
deriving DecidableEq, Repr

/-- Initial backend-access state (`awsErrors = 0`, not paused, no timer). -/
def AwsState.init : AwsState := ⟨0, false, []⟩

/-- `onAWSError`: increment the consecutive error counter; if it reaches the
threshold, set paused and schedule a pause timer `pauseMinutes` from now. -/
def onAWSError (cfg : SrvConfig) (now : Nat) (s : AwsState) : AwsState :=
  let e := s.awsErrors + 1
  if cfg.errorsBeforePausing ≤ e then
    { awsErrors := e, awsPaused := true,
      timers := s.timers ++ [now + cfg.pauseMinutes * 60 * 1000] }
  else
    { s with awsErrors := e }

/-- `onAWSSuccess`: reset the consecutive error counter. -/
def onAWSSuccess (s : AwsState) : AwsState := { s with awsErrors := 0 }

/-- The pause timer callback: unpause, reset the counter, drop the timer. -/
def firePauseTimer (t : Nat) (s : AwsState) : AwsState :=
  { awsErrors := 0, awsPaused := false, timers := s.timers.erase t }

/-- A backend call outcome or timer event as seen by the pause bookkeeping. -/
inductive AwsEv
  | err
  | succ
  | fire
deriving DecidableEq, Repr

/-- One timestamped event applied to the backend-access state.  A fire event
at instant `now` takes effect only if a timer is actually scheduled for
`now` (timers fire exactly at their scheduled instants). -/
def awsStep (cfg : SrvConfig) (s : AwsState) : Nat × AwsEv → AwsState
  | (now, .err) => onAWSError cfg now s
  | (_, .succ) => onAWSSuccess s
  | (now, .fire) => if now ∈ s.timers then firePauseTimer now s else s

/-- Run a timestamped backend-call outcome sequence. -/
def awsRun (cfg : SrvConfig) (tr : List (Nat × AwsEv)) (s : AwsState) : AwsState :=
  tr.foldl (awsStep cfg) s

/-- Event timestamps are nondecreasing along the trace. -/
abbrev Chrono (tr : List (Nat × AwsEv)) : Prop :=
  tr.Pairwise (fun a b => a.1 ≤ b.1)

/-- Body of an HTTP response as sendResponse receives it (a buffer, a string,
a bare number used only for logging the length, the serialized error object
written by prepareErrorResponse, or nothing). -/
inductive RespBody
  | empty
  | str (s : String)
  | buf (b : Buffer)
  | num (n : Nat)
  | errJson (e : AwsErr)
deriving DecidableEq, Repr

/-- An HTTP response: status code (default 200) and body. -/
structure Response where
  status : Nat
  body : RespBody
deriving DecidableEq, Repr

/-- A backend (S3) call issued by a handler. -/
inductive BCall
  | getObject (k : String)
  | headObject (k : String)
  | uploadObject (k : String) (n : Nat)
  | putObject (k : String) (v : Buffer)
  | deleteObject (k : String)
deriving DecidableEq, Repr

/-- What one dispatcher step emits: the response it sends immediately (none
when the response is deferred to a backend resolution) and the backend calls
it issues. -/
structure Obs where
  response : Option Response
  calls : List BCall
deriving DecidableEq, Repr

/-- `isIgnorableError`: `err.retryable === true`. -/
def isIgnorableError (e : AwsErr) : Bool := e.retryable

/-- `shouldIgnoreError`: offline tolerance enabled and the error ignorable. -/
def shouldIgnoreError (e : AwsErr) (cfg : SrvConfig) : Bool :=
  cfg.allowOffline && isIgnorableError e

/-- `err.statusCode || StatusCode.NotFound` (a missing or zero status code is
falsy in the source). -/
def orNotFound : Option Nat → Nat
  | some c => if c = 0 then 404 else c
  | none => 404

/-- `getHttpResponseStatusCode`. -/
def getHttpResponseStatusCode (e : AwsErr) (codeIfIgnoringError : Nat)
    (cfg : SrvConfig) : Nat :=
  if shouldIgnoreError e cfg then codeIfIgnoringError else orNotFound e.statusCode

/-- `prepareErrorResponse` followed by `sendResponse(req, res, null, ...)`:
the response carries the computed status code and the serialized error. -/
def errorResponse (e : AwsErr) (codeIfIgnoringError : Nat) (cfg : SrvConfig) :
    Response :=
  ⟨getHttpResponseStatusCode e codeIfIgnoringError cfg, .errJson e⟩

/-- Whether `pat` occurs as a contiguous run inside `l` (`indexOf >= 0`). -/
def hasSub (pat : Buffer) : Buffer → Bool
  | [] => pat.isEmpty
  | b :: rest => pat.isPrefixOf (b :: rest) || hasSub pat rest

/-- The bytes of the string searched for by isGccDepfile (".o: \"
followed by a backslash). -/
def gccPat : Buffer := [46, 111, 58, 32, 92]

/-- `isGccDepfile`: small enough and containing the gcc depfile marker. -/
def isGccDepfile (v : Buffer) : Bool :=
  decide (v.length ≤ 100000) && hasSub gccPat v

/-- What the GET branch of the dispatcher decides to do. -/
inductive GetAction
  | pong
  | shutdownAction
  | hit (o : Option Buffer)
  | pausedMiss
  | backendGet
deriving DecidableEq, Repr

/-- The GET branch shared by both server generations: reserved paths first,
then the cache (a hit promotes the entry and is served locally), then the
paused check, then a backend getObject call. -/
def handleGetCore (c : Cache) (awsPaused : Bool) (k : String) :
    Cache × GetAction :=
  if k = "ping" then (c, .pong)
  else if k = "shutdown" then (c, .shutdownAction)
  else if c.contains k then
    let r := c.get k
    (r.2, .hit r.1)
  else if awsPaused then (c, .pausedMiss)
  else (c, .backendGet)

/-- Body sent for a cache hit (`sendResponse(req, res, cache.get(s3key), ...)`). -/
def bodyOfOpt : Option Buffer → RespBody
  | some v => .buf v
  | none => .empty

/-- State of the asynchronous (disk-staged) server: the in-memory cache, the
backend-access state, the pending upload byte counter, the staged files of
the upload cache directory (key and size), the uploads currently in flight
(key and size), and whether the process is still alive. -/
structure ServerState where
  cache : Cache
  aws : AwsState
  pendingUploadBytes : Nat
  staged : List (String × Nat)
  inflight : List (String × Nat)
  alive : Bool
deriving DecidableEq, Repr

/-- Server state right after startup (the leftover staging directory has
been purged by clearAsyncUploadCache). -/
def ServerState.init (cfg : SrvConfig) : ServerState :=
  ⟨Cache.init cfg.cache, AwsState.init, 0, [], [], true⟩

/-- `fs.existsSync(pathToUploadCache(s3key, config))`. -/
def stagedHas (st : List (String × Nat)) (k : String) : Bool :=
  st.any (fun p => p.1 == k)

/-- Write the request body to the upload cache file for `k`. -/
def stageFile (st : List (String × Nat)) (k : String) (n : Nat) :
    List (String × Nat) :=
  (k, n) :: st

/-- `safeUnlinkSync(pathToUploadCache(s3key, config))`. -/
def unlinkFile (st : List (String × Nat)) (k : String) : List (String × Nat) :=
  eraseKey k st

/-- The PUT branch of the asynchronous server: root forbidden; a key whose
staged file already exists is answered 200 without a second transfer; the
body is staged; then paused / oversized / pending-budget checks each discard
the staged copy and answer 200; otherwise the budget is reserved and the
backend upload started (response immediate when asyncUpload.enabled). -/
def stepPut (cfg : SrvConfig) (st : ServerState) (k : String) (n : Nat) :
    ServerState × Obs :=
  if k = "" then
    (st, ⟨some ⟨403, .empty⟩, []⟩)
  else if stagedHas st.staged k then
    (st, ⟨some ⟨200, .empty⟩, []⟩)
  else
    let staged1 := stageFile st.staged k n
    if st.aws.awsPaused then
      ({ st with staged := unlinkFile staged1 k }, ⟨some ⟨200, .empty⟩, []⟩)
    else if cfg.maxEntrySizeBytes ≠ 0 ∧ cfg.maxEntrySizeBytes < n then
      ({ st with staged := unlinkFile staged1 k }, ⟨some ⟨200, .num n⟩, []⟩)
    else if cfg.asyncUpload.maxPendingUploadMB * 1024 * 1024 < st.pendingUploadBytes + n then
      ({ st with staged := unlinkFile staged1 k }, ⟨some ⟨200, .num n⟩, []⟩)
    else
      ({ st with staged := staged1,
                 pendingUploadBytes := st.pendingUploadBytes + n,
                 inflight := (k, n) :: st.inflight },
       ⟨if cfg.asyncUpload.enabled then some ⟨200, .num n⟩ else none,
        [.uploadObject k n]⟩)

/-- The GET branch of the asynchronous server, lifted to the server state.
`GET /shutdown` purges the staging directory and terminates the process. -/
def stepGet (st : ServerState) (k : String) : ServerState × Obs :=
  match handleGetCore st.cache st.aws.awsPaused k with
  | (c2, .pong) => ({ st with cache := c2 }, ⟨some ⟨200, .str "pong"⟩, []⟩)
  | (c2, .shutdownAction) =>
    ({ st with cache := c2, staged := [], inflight := [],
               pendingUploadBytes := 0, alive := false },
     ⟨some ⟨200, .str "shutting down"⟩, []⟩)
  | (c2, .hit o) => ({ st with cache := c2 }, ⟨some ⟨200, bodyOfOpt o⟩, []⟩)
  | (c2, .pausedMiss) => ({ st with cache := c2 }, ⟨some ⟨404, .empty⟩, []⟩)
  | (c2, .backendGet) => ({ st with cache := c2 }, ⟨none, [.getObject k]⟩)

/-- The HEAD branch: cache containment, paused check, backend headObject. -/
def stepHead (st : ServerState) (k : String) : ServerState × Obs :=
  if st.cache.contains k then
    (st, ⟨some ⟨200, .empty⟩, []⟩)
  else if st.aws.awsPaused then
    (st, ⟨some ⟨404, .empty⟩, []⟩)
  else
    (st, ⟨none, [.headObject k]⟩)

/-- The DELETE branch: remove from the cache unconditionally and call the
backend delete (no paused check in the source). -/
def stepDelete (st : ServerState) (k : String) : ServerState × Obs :=
  ({ st with cache := (st.cache.delete k).2 }, ⟨none, [.deleteObject k]⟩)

/-- Resolution of a backend getObject call: on success, a blocked gcc
depfile is answered 404, otherwise the cache is populated and the bytes
returned; a 404 failure counts as a successful round trip, any other failure
as a connectivity error; failures are surfaced via prepareErrorResponse. -/
def stepGetResolve (cfg : SrvConfig) (now : Nat) (st : ServerState) (k : String)
    (outcome : Except AwsErr Buffer) : ServerState × Obs :=
  match outcome with
  | .ok v =>
    if !cfg.allowGccDepfiles && isGccDepfile v then
      ({ st with aws := onAWSSuccess st.aws }, ⟨some ⟨404, .empty⟩, []⟩)
    else
      ({ st with cache := st.cache.maybeAdd k v, aws := onAWSSuccess st.aws },
       ⟨some ⟨200, .buf v⟩, []⟩)
  | .error e =>
    let aws2 := if e.statusCode = some 404 then onAWSSuccess st.aws
                else onAWSError cfg now st.aws
    ({ st with aws := aws2 }, ⟨some (errorResponse e 404 cfg), []⟩)

/-- Resolution of a backend headObject call: every failure, 404 included,
goes through onAWSError. -/
def stepHeadResolve (cfg : SrvConfig) (now : Nat) (st : ServerState)
    (outcome : Option AwsErr) : ServerState × Obs :=
  match outcome with
  | none => ({ st with aws := onAWSSuccess st.aws }, ⟨some ⟨200, .empty⟩, []⟩)
  | some e =>
    ({ st with aws := onAWSError cfg now st.aws },
     ⟨some (errorResponse e 404 cfg), []⟩)

/-- Resolution of a backend deleteObject call: every failure, 404 included,
goes through onAWSError. -/
def stepDeleteResolve (cfg : SrvConfig) (now : Nat) (st : ServerState)
    (outcome : Option AwsErr) : ServerState × Obs :=
  match outcome with
  | none => ({ st with aws := onAWSSuccess st.aws }, ⟨some ⟨200, .empty⟩, []⟩)
  | some e =>
    ({ st with aws := onAWSError cfg now st.aws },
     ⟨some (errorResponse e 404 cfg), []⟩)

/-- Resolution of a backend upload for `k` (the final continuation releases
the pending budget and unlinks the staged file exactly once; the response was
already sent when asyncUpload.enabled, otherwise it is sent now). -/
def stepPutResolve (cfg : SrvConfig) (now : Nat) (st : ServerState) (k : String)
    (err : Option AwsErr) : ServerState × Obs :=
  match lookupKey k st.inflight with
  | none => (st, ⟨none, []⟩)
  | some n =>
    let aws2 := match err with
      | none => onAWSSuccess st.aws
      | some _ => onAWSError cfg now st.aws
    let resp : Option Response := match err with
      | none => if cfg.asyncUpload.enabled then none else some ⟨200, .empty⟩
      | some e => if cfg.asyncUpload.enabled then none
                  else some (errorResponse e 200 cfg)
    ({ st with aws := aws2,
               pendingUploadBytes := st.pendingUploadBytes - n,
               staged := unlinkFile st.staged k,
               inflight := eraseKey k st.inflight },
     ⟨resp, []⟩)

/-- One event of the asynchronous server: an inbound request handled up to
its first suspension point, the resolution of a backend call, a pause timer
firing, or a request with an unsupported method. -/
inductive SEvent
  | reqGet (k : String)
  | reqHead (k : String)
  | reqDelete (k : String)
  | reqPut (k : String) (n : Nat)
  | resGet (now : Nat) (k : String) (outcome : Except AwsErr Buffer)
  | resHead (now : Nat) (outcome : Option AwsErr)
  | resDelete (now : Nat) (outcome : Option AwsErr)
  | resPut (now : Nat) (k : String) (err : Option AwsErr)
  | fire (now : Nat)
  | reqOther

/-- Dispatch one event, producing the new state and the observation. -/
def serverStepO (cfg : SrvConfig) (st : ServerState) : SEvent → ServerState × Obs
  | .reqGet k => stepGet st k
  | .reqHead k => stepHead st k
  | .reqDelete k => stepDelete st k
  | .reqPut k n => stepPut cfg st k n
  | .resGet now k outcome => stepGetResolve cfg now st k outcome
  | .resHead now outcome => stepHeadResolve cfg now st outcome
  | .resDelete now outcome => stepDeleteResolve cfg now st outcome
  | .resPut now k err => stepPutResolve cfg now st k err
  | .fire now =>
    ({ st with aws := if now ∈ st.aws.timers then firePauseTimer now st.aws
                      else st.aws },
     ⟨none, []⟩)
  | .reqOther => (st, ⟨some ⟨405, .empty⟩, []⟩)

/-- Dispatch one event, keeping only the state. -/
def serverStep (cfg : SrvConfig) (st : ServerState) (e : SEvent) : ServerState :=
  (serverStepO cfg st e).1

/-- Run the asynchronous server from startup over a sequence of events. -/
def serverRun (cfg : SrvConfig) (evs : List SEvent) : ServerState :=
  evs.foldl (serverStep cfg) (ServerState.init cfg)

/-- The PUT branch of the synchronous server (src/server.ts): the body is
accumulated in memory, `cache.maybeAdd` runs on every non-root PUT before the
paused and size checks, and the backend putObject call carries the body. -/
def handlePutSync (cfg : SrvConfig) (c : Cache) (awsPaused : Bool) (k : String)
    (v : Buffer) : Cache × Obs :=
  if k = "" then
    (c, ⟨some ⟨403, .empty⟩, []⟩)
  else
    let c1 := c.maybeAdd k v
    if awsPaused then
      (c1, ⟨some ⟨200, .empty⟩, []⟩)
    else if cfg.maxEntrySizeBytes ≠ 0 ∧ cfg.maxEntrySizeBytes < v.length then
      (c1, ⟨some ⟨200, .empty⟩, []⟩)
    else
      (c1, ⟨none, [.putObject k v]⟩)

/-- Invariant of the staging area and upload pipeline: staged file names are
distinct and never the root, at most one upload per key is in flight, and
every in-flight upload has its staged file. -/
def StagingInv (st : ServerState) : Prop :=
  (st.staged.map Prod.fst).Nodup ∧
  (∀ p ∈ st.staged, p.1 ≠ "") ∧
  (st.inflight.map Prod.fst).Nodup ∧
  (∀ p ∈ st.inflight, stagedHas st.staged p.1 = true)

theorem eraseKey_sublist {α : Type} (k : String) (l : List (String × α)) :
    (eraseKey k l).Sublist l := by
  induction l with
  | nil => simp [eraseKey]
  | cons p rest ih =>
    by_cases h : p.1 = k
    · simp [eraseKey, h]
    · simpa [eraseKey, h] using ih.cons₂ p

theorem eraseKey_cons_self {α : Type} (k : String) (a : α)
    (l : List (String × α)) : eraseKey k ((k, a) :: l) = l := by
  simp [eraseKey]

theorem lookupKey_mem {α : Type} {k : String} {v : α} {l : List (String × α)}
    (h : lookupKey k l = some v) : (k, v) ∈ l := by
  induction l with
  | nil => simp [lookupKey] at h
  | cons p rest ih =>
    obtain ⟨a, b⟩ := p
    by_cases hp : a = k
    · subst hp
      simp [lookupKey] at h
      subst h
      exact List.mem_cons_self _ _
    · simp [lookupKey, hp] at h
      exact List.mem_cons_of_mem _ (ih h)

theorem lookupKey_eq_none {α : Type} {k : String} {l : List (String × α)} :
    lookupKey k l = none ↔ k ∉ l.map Prod.fst := by
  induction l with
  | nil => simp [lookupKey]
  | cons p rest ih =>
    obtain ⟨a, b⟩ := p
    by_cases hp : a = k
    · subst hp
      simp [lookupKey]
    · rw [show lookupKey k ((a, b) :: rest) = lookupKey k rest from by
        simp [lookupKey, hp]]
      simp only [List.map_cons, List.mem_cons]
      constructor
      · intro h
        push_neg
        exact ⟨fun hk => hp hk.symm, ih.mp h⟩
      · intro h
        push_neg at h
        exact ih.mpr h.2

theorem eraseKey_of_not_mem {α : Type} {k : String} {l : List (String × α)}
    (h : k ∉ l.map Prod.fst) : eraseKey k l = l := by
  induction l with
  | nil => rfl
  | cons p rest ih =>
    simp only [List.map_cons, List.mem_cons] at h
    push_neg at h
    have hne : ¬ p.1 = k := fun hh => h.1 hh.symm
    simp only [eraseKey, if_neg hne, ih h.2]

theorem not_mem_keys_eraseKey {α : Type} {k : String} {l : List (String × α)}
    (h : (l.map Prod.fst).Nodup) : k ∉ (eraseKey k l).map Prod.fst := by
  induction l with
  | nil => simp [eraseKey]
  | cons p rest ih =>
    simp only [List.map_cons, List.nodup_cons] at h
    by_cases hp : p.1 = k
    · subst hp
      simpa [eraseKey] using h.1
    · simp only [eraseKey, if_neg hp, List.map_cons, List.mem_cons]
      push_neg
      exact ⟨fun hh => hp hh.symm, ih h.2⟩

theorem mem_eraseKey {α : Type} {k : String} {p : String × α}
    {l : List (String × α)} (hnd : (l.map Prod.fst).Nodup)
    (h : p ∈ eraseKey k l) : p ∈ l ∧ p.1 ≠ k := by
  refine ⟨(eraseKey_sublist k l).subset h, ?_⟩
  intro hk
  exact not_mem_keys_eraseKey hnd (hk ▸ List.mem_map_of_mem Prod.fst h)

theorem keys_eraseKey_subset {α : Type} (k : String) (l : List (String × α)) :
    ((eraseKey k l).map Prod.fst).Sublist (l.map Prod.fst) :=
  (eraseKey_sublist k l).map Prod.fst

theorem cacheSize_cons (p : String × Buffer) (l : List (String × Buffer)) :
    cacheSize (p :: l) = p.2.length + cacheSize l := by
  simp [cacheSize]

theorem cacheSize_le_of_sublist {l1 l2 : List (String × Buffer)}
    (h : l1.Sublist l2) : cacheSize l1 ≤ cacheSize l2 := by
  induction h with
  | slnil => exact le_refl _
  | cons p _ ih => rw [cacheSize_cons]; omega
  | cons₂ p _ ih => rw [cacheSize_cons, cacheSize_cons]; omega

theorem makeSpaceLoop_sublist (m n : Nat) :
    ∀ (fuel : Nat) (l : List (String × Buffer)),
      (makeSpaceLoop m n fuel l).Sublist l := by
  intro fuel
  induction fuel with
  | zero => intro l; simp [makeSpaceLoop]
  | succ f ih =>
    intro l
    by_cases h : l.length ≠ 0 ∧ m < cacheSize l + n
    · rw [makeSpaceLoop, if_pos h]
      exact (ih l.dropLast).trans (List.dropLast_sublist l)
    · rw [makeSpaceLoop, if_neg h]

theorem makeSpaceLoop_post (m n : Nat) :
    ∀ (fuel : Nat) (l : List (String × Buffer)), l.length ≤ fuel →
      makeSpaceLoop m n fuel l = [] ∨
        cacheSize (makeSpaceLoop m n fuel l) + n ≤ m := by
  intro fuel
  induction fuel with
  | zero =>
    intro l hl
    left
    have hnil : l = [] := List.length_eq_zero.mp (Nat.le_zero.mp hl)
    simp [makeSpaceLoop, hnil]
  | succ f ih =>
    intro l hl
    by_cases h : l.length ≠ 0 ∧ m < cacheSize l + n
    · rw [makeSpaceLoop, if_pos h]
      exact ih l.dropLast (by simp [List.length_dropLast]; omega)
    · rw [makeSpaceLoop, if_neg h]
      push_neg at h
      by_cases hz : l.length = 0
      · left; exact List.length_eq_zero.mp hz
      · right
        have := h hz
        omega

theorem makeSpace_sublist (cfg : CacheConfig) (n : Nat)
    (l : List (String × Buffer)) : (makeSpace cfg n l).Sublist l := by
  unfold makeSpace
  by_cases h : cfg.enabled <;> simp [h, makeSpaceLoop_sublist]

theorem makeSpace_post (cfg : CacheConfig) (n : Nat)
    (l : List (String × Buffer)) (hen : cfg.enabled = true) :
    makeSpace cfg n l = [] ∨
      cacheSize (makeSpace cfg n l) + n ≤ cfg.maxTotalSizeBytes := by
  unfold makeSpace
  simp only [hen, if_true]
  exact makeSpaceLoop_post _ n l.length l (le_refl _)

theorem delete_snd_nodes (c : Cache) (k : String) :
    (c.delete k).2.nodes = eraseKey k c.nodes := by
  unfold Cache.delete
  by_cases h : (lookupKey k c.nodes).isSome
  · simp [h]
  · simp only [h, if_false, Bool.false_eq_true]
    rw [eraseKey_of_not_mem]
    exact lookupKey_eq_none.mp (Option.not_isSome_iff_eq_none.mp h)

theorem delete_snd_config (c : Cache) (k : String) :
    (c.delete k).2.config = c.config := by
  unfold Cache.delete
  by_cases h : (lookupKey k c.nodes).isSome <;> simp [h]

theorem maybeAdd_config (c : Cache) (k : String) (v : Buffer) :
    (c.maybeAdd k v).config = c.config := by
  unfold Cache.maybeAdd
  by_cases he : c.config.enabled <;>
    by_cases hv : v.length < c.config.maxEntrySizeBytes <;>
    simp [he, hv, delete_snd_config]

theorem maybeAdd_nodes_of_fits {c : Cache} {k : String} {v : Buffer}
    (hen : c.config.enabled = true)
    (hv : v.length < c.config.maxEntrySizeBytes) :
    (c.maybeAdd k v).nodes =
      (k, v) :: makeSpace c.config v.length (eraseKey k c.nodes) := by
  unfold Cache.maybeAdd
  simp [hen, hv, delete_snd_nodes, delete_snd_config]

theorem maybeAdd_nodes_of_big {c : Cache} {k : String} {v : Buffer}
    (hen : c.config.enabled = true)
    (hv : ¬ v.length < c.config.maxEntrySizeBytes) :
    (c.maybeAdd k v).nodes = eraseKey k c.nodes := by
  unfold Cache.maybeAdd
  simp [hen, hv, delete_snd_nodes]

theorem maybeAdd_of_disabled {c : Cache} {k : String} {v : Buffer}
    (hen : c.config.enabled = false) : c.maybeAdd k v = c := by
  unfold Cache.maybeAdd
  simp [hen]

theorem cacheInv_of_sublist {c2 c : Cache} (h : CacheInv c)
    (hcfg : c2.config = c.config) (hsub : c2.nodes.Sublist c.nodes) :
    CacheInv c2 := by
  obtain ⟨h1, h2, h3⟩ := h
  refine ⟨?_, ?_, ?_⟩
  · rw [hcfg]
    exact (cacheSize_le_of_sublist hsub).trans h1
  · intro p hp
    rw [hcfg]
    exact h2 p (hsub.subset hp)
  · exact h3.sublist (hsub.map Prod.fst)

theorem cacheInv_maybeAdd {c : Cache}
    (hc : c.config.maxEntrySizeBytes ≤ c.config.maxTotalSizeBytes)
    (h : CacheInv c) (k : String) (v : Buffer) : CacheInv (c.maybeAdd k v) := by
  obtain ⟨h1, h2, h3⟩ := h
  by_cases hen : c.config.enabled = true
  · by_cases hv : v.length < c.config.maxEntrySizeBytes
    · have hnodes := maybeAdd_nodes_of_fits (c := c) (k := k) (v := v) hen hv
      have hcfg := maybeAdd_config c k v
      have hsub1 : (makeSpace c.config v.length (eraseKey k c.nodes)).Sublist
          (eraseKey k c.nodes) := makeSpace_sublist _ _ _
      have hsub2 : (makeSpace c.config v.length (eraseKey k c.nodes)).Sublist
          c.nodes := hsub1.trans (eraseKey_sublist k c.nodes)
      refine ⟨?_, ?_, ?_⟩
      · rw [hnodes, hcfg, cacheSize_cons]
        show v.length + cacheSize (makeSpace c.config v.length
          (eraseKey k c.nodes)) ≤ c.config.maxTotalSizeBytes
        rcases makeSpace_post c.config v.length (eraseKey k c.nodes) hen with
          hmp | hmp
        · rw [hmp]
          simp only [cacheSize, List.map_nil, List.sum_nil]
          omega
        · omega
      · intro p hp
        rw [hnodes] at hp
        rw [hcfg]
        rcases List.mem_cons.mp hp with hp | hp
        · subst hp
          exact hv
        · exact h2 p (hsub2.subset hp)
      · rw [hnodes]
        simp only [List.map_cons, List.nodup_cons]
        constructor
        · intro hk
          exact not_mem_keys_eraseKey h3 ((hsub1.map Prod.fst).subset hk)
        · exact h3.sublist (hsub2.map Prod.fst)
    · have hnodes := maybeAdd_nodes_of_big (c := c) (k := k) (v := v) hen hv
      exact cacheInv_of_sublist ⟨h1, h2, h3⟩ (maybeAdd_config c k v)
        (hnodes ▸ eraseKey_sublist k c.nodes)
  · rw [maybeAdd_of_disabled (Bool.not_eq_true _ ▸ hen)]
    exact ⟨h1, h2, h3⟩

theorem cacheInv_delete {c : Cache} (h : CacheInv c) (k : String) :
    CacheInv (c.delete k).2 :=
  cacheInv_of_sublist h (delete_snd_config c k)
    ((delete_snd_nodes c k) ▸ eraseKey_sublist k c.nodes)

theorem cacheInv_get {c : Cache}
    (hc : c.config.maxEntrySizeBytes ≤ c.config.maxTotalSizeBytes)
    (h : CacheInv c) (k : String) : CacheInv (c.get k).2 := by
  unfold Cache.get
  rcases hl : lookupKey k c.nodes with _ | v
  · exact h
  · have herase : CacheInv { c with nodes := eraseKey k c.nodes } :=
      cacheInv_of_sublist h rfl (eraseKey_sublist k c.nodes)
    exact cacheInv_maybeAdd (c := { c with nodes := eraseKey k c.nodes })
      hc herase k v

theorem applyOp_config (c : Cache) (op : CacheOp) :
    (c.applyOp op).config = c.config := by
  cases op with
  | containsOp k => rfl
  | getOp k =>
    show (c.get k).2.config = c.config
    unfold Cache.get
    rcases hl : lookupKey k c.nodes with _ | v
    · rfl
    · exact maybeAdd_config _ k v
  | addOp k v => exact maybeAdd_config c k v
  | deleteOp k => exact delete_snd_config c k

theorem cacheInv_applyOp {c : Cache}
    (hc : c.config.maxEntrySizeBytes ≤ c.config.maxTotalSizeBytes)
    (h : CacheInv c) (op : CacheOp) : CacheInv (c.applyOp op) := by
  cases op with
  | containsOp k => exact h
  | getOp k => exact cacheInv_get hc h k
  | addOp k v => exact cacheInv_maybeAdd hc h k v
  | deleteOp k => exact cacheInv_delete h k

theorem cacheInv_runOps :
    ∀ (ops : List CacheOp) (c : Cache),
      c.config.maxEntrySizeBytes ≤ c.config.maxTotalSizeBytes →
      CacheInv c → CacheInv (c.runOps ops) := by
  intro ops
  induction ops with
  | nil => intro c _ h; exact h
  | cons op rest ih =>
    intro c hc h
    have hstep := cacheInv_applyOp hc h op
    have hcfg := applyOp_config c op
    exact ih (c.applyOp op) (hcfg ▸ hc) hstep

/-- Claim C2: for every sequence of contains/get/maybeAdd/delete operations on
the Content Cache, starting from a fresh cache whose configuration satisfies
the validated bound maxEntrySizeBytes ≤ maxTotalSizeBytes, every reachable
state keeps the sum of resident entry sizes at most maxTotalSizeBytes, every
resident entry strictly below maxEntrySizeBytes, and at most one entry per
key. -/
theorem cache_invariant_reachable (cfg : CacheConfig)
    (hc : cfg.maxEntrySizeBytes ≤ cfg.maxTotalSizeBytes) (ops : List CacheOp) :
    CacheInv ((Cache.init cfg).runOps ops) := by
  refine cacheInv_runOps ops (Cache.init cfg) hc ?_
  refine ⟨?_, ?_, ?_⟩ <;> simp [Cache.init, cacheSize]

/-- Witness for C2: a concrete run (insert, overwrite, promote, evict,
delete) satisfies the invariant. -/
theorem cache_invariant_reachable_witness :
    (2 : Nat) ≤ 4 ∧
      CacheInv ((Cache.init ⟨true, 2, 4⟩).runOps
        [.addOp "a" [7], .addOp "b" [8], .getOp "a", .addOp "b" [1, 9],
         .addOp "c" [5], .deleteOp "a", .containsOp "c"]) :=
  ⟨by decide, cache_invariant_reachable ⟨true, 2, 4⟩ (by decide) _⟩

theorem eraseKey_cons_of_ne {α : Type} {k : String} {p : String × α}
    (l : List (String × α)) (h : p.1 ≠ k) :
    eraseKey k (p :: l) = p :: eraseKey k l := by
  simp [eraseKey, h]

theorem lookupKey_cons_self {α : Type} (k : String) (v : α)
    (l : List (String × α)) : lookupKey k ((k, v) :: l) = some v := by
  simp [lookupKey]

theorem lookupKey_cons_of_ne {α : Type} {k : String} {p : String × α}
    (l : List (String × α)) (h : p.1 ≠ k) :
    lookupKey k (p :: l) = lookupKey k l := by
  simp [lookupKey, h]

theorem makeSpaceLoop_of_le {m n : Nat} {l : List (String × Buffer)}
    (h : cacheSize l + n ≤ m) : ∀ fuel, makeSpaceLoop m n fuel l = l := by
  intro fuel
  cases fuel with
  | zero => rfl
  | succ f =>
    rw [makeSpaceLoop, if_neg]
    push_neg
    intro _
    omega

theorem makeSpaceLoop_succ_of_lt {m n : Nat} {l : List (String × Buffer)}
    (h1 : l ≠ []) (h2 : m < cacheSize l + n) (fuel : Nat) :
    makeSpaceLoop m n (fuel + 1) l = makeSpaceLoop m n fuel l.dropLast := by
  rw [makeSpaceLoop, if_pos]
  exact ⟨by simpa using h1, h2⟩

theorem makeSpace_of_le {cfg : CacheConfig} {n : Nat}
    {l : List (String × Buffer)} (h : cacheSize l + n ≤ cfg.maxTotalSizeBytes) :
    makeSpace cfg n l = l := by
  unfold makeSpace
  by_cases hen : cfg.enabled
  · rw [if_pos hen]
    exact makeSpaceLoop_of_le h _
  · rw [if_neg hen]

theorem makeSpace_nil (cfg : CacheConfig) (n : Nat) :
    makeSpace cfg n [] = [] :=
  List.sublist_nil.mp (makeSpace_sublist cfg n [])

theorem makeSpace_two {cfg : CacheConfig} (hen : cfg.enabled = true) (n : Nat)
    (x y : String × Buffer)
    (h1 : cfg.maxTotalSizeBytes < cacheSize [x, y] + n)
    (h2 : cacheSize [x] + n ≤ cfg.maxTotalSizeBytes) :
    makeSpace cfg n [x, y] = [x] := by
  unfold makeSpace
  rw [if_pos hen]
  rw [show ([x, y] : List (String × Buffer)).length = 1 + 1 from rfl]
  rw [makeSpaceLoop_succ_of_lt (by simp) h1 1]
  rw [show ([x, y] : List (String × Buffer)).dropLast = [x] from rfl]
  exact makeSpaceLoop_of_le h2 1

/-- Claim C3: with A inserted before B, an insertion of C that forces exactly
one eviction evicts A (the least recently used); if a successful get(A)
happens between the insertions of B and C, the same insertion of C evicts B
instead, because get promotes its hit to most recently used. -/
theorem lru_eviction_order (cfg : CacheConfig) (A B C : String)
    (va vb vc : Buffer)
    (hAB : A ≠ B) (hCA : C ≠ A) (hCB : C ≠ B)
    (hen : cfg.enabled = true)
    (ha : va.length < cfg.maxEntrySizeBytes)
    (hb : vb.length < cfg.maxEntrySizeBytes)
    (hc : vc.length < cfg.maxEntrySizeBytes)
    (hab : va.length + vb.length ≤ cfg.maxTotalSizeBytes)
    (hbc : vb.length + vc.length ≤ cfg.maxTotalSizeBytes)
    (hac : va.length + vc.length ≤ cfg.maxTotalSizeBytes)
    (hforce : cfg.maxTotalSizeBytes < va.length + vb.length + vc.length) :
    ((Cache.init cfg).runOps [.addOp A va, .addOp B vb, .addOp C vc]).nodes
        = [(C, vc), (B, vb)] ∧
    ((Cache.init cfg).runOps
        [.addOp A va, .addOp B vb, .getOp A, .addOp C vc]).nodes
        = [(C, vc), (A, va)] := by
  -- state after inserting A
  have hc1n : ((Cache.init cfg).maybeAdd A va).nodes = [(A, va)] := by
    rw [maybeAdd_nodes_of_fits (c := Cache.init cfg) hen ha]
    rw [show eraseKey A (Cache.init cfg).nodes = [] from rfl, makeSpace_nil]
  have hc1c : ((Cache.init cfg).maybeAdd A va).config = cfg :=
    maybeAdd_config _ A va
  -- state after inserting B
  have hc2n : (((Cache.init cfg).maybeAdd A va).maybeAdd B vb).nodes
      = [(B, vb), (A, va)] := by
    rw [maybeAdd_nodes_of_fits (c := (Cache.init cfg).maybeAdd A va)
      (by rw [hc1c]; exact hen) (by rw [hc1c]; exact hb)]
    rw [hc1n, hc1c]
    rw [eraseKey_cons_of_ne _ (show ((A, va) : String × Buffer).1 ≠ B from hAB)]
    rw [show eraseKey B ([] : List (String × Buffer)) = [] from rfl]
    rw [makeSpace_of_le (by simp [cacheSize]; omega)]
  have hc2c : (((Cache.init cfg).maybeAdd A va).maybeAdd B vb).config = cfg := by
    rw [maybeAdd_config, hc1c]
  constructor
  · -- scenario 1: insert C, A is evicted
    show ((((Cache.init cfg).maybeAdd A va).maybeAdd B vb).maybeAdd C vc).nodes
      = [(C, vc), (B, vb)]
    rw [maybeAdd_nodes_of_fits (by rw [hc2c]; exact hen) (by rw [hc2c]; exact hc)]
    rw [hc2n, hc2c]
    rw [eraseKey_cons_of_ne _ (show ((B, vb) : String × Buffer).1 ≠ C from
      fun h => hCB h.symm)]
    rw [eraseKey_cons_of_ne _ (show ((A, va) : String × Buffer).1 ≠ C from
      fun h => hCA h.symm)]
    rw [show eraseKey C ([] : List (String × Buffer)) = [] from rfl]
    rw [makeSpace_two hen vc.length (B, vb) (A, va)
      (by simp [cacheSize]; omega) (by simp [cacheSize]; omega)]
  · -- scenario 2: get A promotes it, so inserting C evicts B
    have hlook : lookupKey A (((Cache.init cfg).maybeAdd A va).maybeAdd B vb).nodes
        = some va := by
      rw [hc2n]
      rw [lookupKey_cons_of_ne _ (show ((B, vb) : String × Buffer).1 ≠ A from
        fun h => hAB h.symm)]
      exact lookupKey_cons_self A va []
    have hget : ((((Cache.init cfg).maybeAdd A va).maybeAdd B vb).get A).2
        = Cache.maybeAdd
            { ((Cache.init cfg).maybeAdd A va).maybeAdd B vb with
              nodes := eraseKey A
                (((Cache.init cfg).maybeAdd A va).maybeAdd B vb).nodes }
            A va := by
      unfold Cache.get
      rw [hlook]
    have herased : eraseKey A
        (((Cache.init cfg).maybeAdd A va).maybeAdd B vb).nodes = [(B, vb)] := by
      rw [hc2n]
      rw [eraseKey_cons_of_ne _ (show ((B, vb) : String × Buffer).1 ≠ A from
        fun h => hAB h.symm)]
      rw [show eraseKey A [(A, va)] = [] from by simp [eraseKey]]
    have hgn : ((((Cache.init cfg).maybeAdd A va).maybeAdd B vb).get A).2.nodes
        = [(A, va), (B, vb)] := by
      rw [hget]
      rw [maybeAdd_nodes_of_fits (by rw [hc2c]; exact hen) (by rw [hc2c]; exact ha)]
      simp only [herased]
      rw [hc2c]
      rw [eraseKey_cons_of_ne _ (show ((B, vb) : String × Buffer).1 ≠ A from
        fun h => hAB h.symm)]
      rw [show eraseKey A ([] : List (String × Buffer)) = [] from rfl]
      rw [makeSpace_of_le (by simp [cacheSize]; omega)]
    have hgc : ((((Cache.init cfg).maybeAdd A va).maybeAdd B vb).get A).2.config
        = cfg := by
      rw [hget, maybeAdd_config, hc2c]
    show (((((Cache.init cfg).maybeAdd A va).maybeAdd B vb).get A).2.maybeAdd
        C vc).nodes = [(C, vc), (A, va)]
    rw [maybeAdd_nodes_of_fits (by rw [hgc]; exact hen) (by rw [hgc]; exact hc)]
    rw [hgn, hgc]
    rw [eraseKey_cons_of_ne _ (show ((A, va) : String × Buffer).1 ≠ C from
      fun h => hCA h.symm)]
    rw [eraseKey_cons_of_ne _ (show ((B, vb) : String × Buffer).1 ≠ C from
      fun h => hCB h.symm)]
    rw [show eraseKey C ([] : List (String × Buffer)) = [] from rfl]
    rw [makeSpace_two hen vc.length (A, va) (B, vb)
      (by simp [cacheSize]; omega) (by simp [cacheSize]; omega)]

/-- Witness for C3: concrete keys and sizes realizing both eviction orders. -/
theorem lru_eviction_order_witness :
    ((Cache.init ⟨true, 3, 4⟩).runOps
        [.addOp "a" [0, 0], .addOp "b" [0, 0], .addOp "c" [0, 0]]).nodes
      = [("c", [0, 0]), ("b", [0, 0])] ∧
    ((Cache.init ⟨true, 3, 4⟩).runOps
        [.addOp "a" [0, 0], .addOp "b" [0, 0], .getOp "a",
         .addOp "c" [0, 0]]).nodes
      = [("c", [0, 0]), ("a", [0, 0])] :=
  lru_eviction_order ⟨true, 3, 4⟩ "a" "b" "c" [0, 0] [0, 0] [0, 0]
    (by decide) (by decide) (by decide) (by decide) (by decide) (by decide)
    (by decide) (by decide) (by decide) (by decide) (by decide)

theorem delete_snd_of_not_contains {c : Cache} {k : String}
    (h : c.contains k = false) : (c.delete k).2 = c := by
  unfold Cache.delete
  unfold Cache.contains at h
  rw [if_neg (by simp [h])]

/-- Counterexample to C6: with caching enabled, maxEntrySizeBytes = 2 and an
entry resident under "k", a put of a 2-byte buffer (length ≥
maxEntrySizeBytes) is not a no-op — it removes the resident entry. -/
theorem put_oversized_noop_counterexample :
    (2 : Nat) ≤ ([5, 6] : Buffer).length ∧
    ((Cache.init ⟨true, 2, 10⟩).maybeAdd "k" [7]).maybeAdd "k" [5, 6]
      ≠ (Cache.init ⟨true, 2, 10⟩).maybeAdd "k" [7] := by
  decide

/-- Claim C6 (amended): put(key, bytes) is a no-op whenever caching is
disabled; when caching is enabled and len(bytes) ≥ maxEntrySizeBytes, no
entry is inserted but any existing entry for key is removed first, so the
operation is a no-op only when no entry for key is resident. -/
theorem put_oversized_behavior (c : Cache) (k : String) (v : Buffer) :
    (c.config.enabled = false → c.maybeAdd k v = c) ∧
    (c.config.enabled = true → c.config.maxEntrySizeBytes ≤ v.length →
      (c.maybeAdd k v).nodes = eraseKey k c.nodes ∧
      (c.maybeAdd k v).config = c.config) ∧
    (c.config.enabled = true → c.config.maxEntrySizeBytes ≤ v.length →
      c.contains k = false → c.maybeAdd k v = c) := by
  refine ⟨?_, ?_, ?_⟩
  · intro hen
    exact maybeAdd_of_disabled hen
  · intro hen hv
    exact ⟨maybeAdd_nodes_of_big hen (not_lt.mpr hv), maybeAdd_config c k v⟩
  · intro hen hv hcon
    show (if c.config.enabled = true then
        let c1 := (c.delete k).2
        if v.length < c.config.maxEntrySizeBytes then
          { c1 with nodes := (k, v) :: makeSpace c1.config v.length c1.nodes }
        else c1
      else c) = c
    rw [if_pos hen]
    simp only [if_neg (not_lt.mpr hv)]
    exact delete_snd_of_not_contains hcon

/-- Witness for the amended C6: concrete instances of all three branches. -/
theorem put_oversized_behavior_witness :
    ((Cache.init ⟨false, 2, 10⟩).maybeAdd "k" [7] = Cache.init ⟨false, 2, 10⟩) ∧
    (((Cache.init ⟨true, 2, 10⟩).maybeAdd "k" [7]).maybeAdd "k" [5, 6]).nodes
      = eraseKey "k" ((Cache.init ⟨true, 2, 10⟩).maybeAdd "k" [7]).nodes ∧
    ((Cache.init ⟨true, 2, 10⟩).maybeAdd "q" [5, 6] = Cache.init ⟨true, 2, 10⟩) :=
  ⟨(put_oversized_behavior (Cache.init ⟨false, 2, 10⟩) "k" [7]).1 (by decide),
   ((put_oversized_behavior ((Cache.init ⟨true, 2, 10⟩).maybeAdd "k" [7]) "k"
      [5, 6]).2.1 (by decide) (by decide)).1,
   (put_oversized_behavior (Cache.init ⟨true, 2, 10⟩) "q" [5, 6]).2.2
     (by decide) (by decide) (by decide)⟩

theorem awsRun_nil (cfg : SrvConfig) (s : AwsState) : awsRun cfg [] s = s := rfl

theorem awsRun_cons (cfg : SrvConfig) (x : Nat × AwsEv)
    (tr : List (Nat × AwsEv)) (s : AwsState) :
    awsRun cfg (x :: tr) s = awsRun cfg tr (awsStep cfg s x) := rfl

theorem awsRun_append (cfg : SrvConfig) (tr1 tr2 : List (Nat × AwsEv))
    (s : AwsState) :
    awsRun cfg (tr1 ++ tr2) s = awsRun cfg tr2 (awsRun cfg tr1 s) :=
  List.foldl_append _ _ tr1 tr2

theorem onAWSError_awsErrors (cfg : SrvConfig) (now : Nat) (s : AwsState) :
    (onAWSError cfg now s).awsErrors = s.awsErrors + 1 := by
  simp only [onAWSError]
  by_cases h : cfg.errorsBeforePausing ≤ s.awsErrors + 1 <;> simp [h]

theorem onAWSError_of_lt {cfg : SrvConfig} {now : Nat} {s : AwsState}
    (h : s.awsErrors + 1 < cfg.errorsBeforePausing) :
    onAWSError cfg now s = { s with awsErrors := s.awsErrors + 1 } := by
  simp only [onAWSError]
  rw [if_neg (by omega)]

theorem onAWSError_of_threshold {cfg : SrvConfig} {now : Nat} {s : AwsState}
    (h : cfg.errorsBeforePausing ≤ s.awsErrors + 1) :
    onAWSError cfg now s =
      { awsErrors := s.awsErrors + 1, awsPaused := true,
        timers := s.timers ++ [now + cfg.pauseMinutes * 60 * 1000] } := by
  simp only [onAWSError]
  rw [if_pos h]

theorem awsRun_errs_awsErrors (cfg : SrvConfig) :
    ∀ (times : List Nat) (s : AwsState),
      (awsRun cfg (times.map (fun u => (u, AwsEv.err))) s).awsErrors
        = s.awsErrors + times.length := by
  intro times
  induction times with
  | nil => intro s; rfl
  | cons u rest ih =>
    intro s
    rw [List.map_cons, awsRun_cons]
    show (awsRun cfg (rest.map (fun u => (u, AwsEv.err)))
      (onAWSError cfg u s)).awsErrors = s.awsErrors + (rest.length + 1)
    rw [ih, onAWSError_awsErrors]
    omega

theorem paused_after_threshold_errors (cfg : SrvConfig)
    (hth : 1 ≤ cfg.errorsBeforePausing) (times : List Nat) (s : AwsState)
    (hz : s.awsErrors = 0) (hlen : cfg.errorsBeforePausing ≤ times.length) :
    (awsRun cfg (times.map (fun u => (u, AwsEv.err))) s).awsPaused = true := by
  rcases List.eq_nil_or_concat times with hnil | ⟨L, b, hcat⟩
  · subst hnil
    simp at hlen
    omega
  · subst hcat
    rw [List.concat_eq_append] at hlen ⊢
    rw [List.map_append, awsRun_append]
    show (awsStep cfg (awsRun cfg (L.map (fun u => (u, AwsEv.err))) s)
      (b, AwsEv.err)).awsPaused = true
    have hs := awsRun_errs_awsErrors cfg L s
    rw [hz] at hs
    show (onAWSError cfg b
      (awsRun cfg (L.map (fun u => (u, AwsEv.err))) s)).awsPaused = true
    rw [onAWSError_of_threshold (by rw [hs]; simp at hlen; omega)]

theorem paused_persists (cfg : SrvConfig) (t : Nat) :
    ∀ (tr : List (Nat × AwsEv)) (s : AwsState),
      s.awsPaused = true →
      (∀ x ∈ s.timers, t + pauseMs cfg ≤ x) →
      (∀ ev ∈ tr, t ≤ ev.1 ∧ ev.1 < t + pauseMs cfg) →
      (awsRun cfg tr s).awsPaused = true ∧
        ∀ x ∈ (awsRun cfg tr s).timers, t + pauseMs cfg ≤ x := by
  intro tr
  induction tr with
  | nil => intro s h1 h2 _; exact ⟨h1, h2⟩
  | cons ev rest ih =>
    intro s h1 h2 h3
    obtain ⟨u, e⟩ := ev
    have hu := h3 (u, e) (List.mem_cons_self _ _)
    rw [awsRun_cons]
    have hrest : ∀ ev ∈ rest, t ≤ ev.1 ∧ ev.1 < t + pauseMs cfg :=
      fun ev hev => h3 ev (List.mem_cons_of_mem _ hev)
    cases e with
    | err =>
      by_cases hth : cfg.errorsBeforePausing ≤ s.awsErrors + 1
      · refine ih _ ?_ ?_ hrest
        · rw [show awsStep cfg s (u, AwsEv.err) = onAWSError cfg u s from rfl,
            onAWSError_of_threshold hth]
        · rw [show awsStep cfg s (u, AwsEv.err) = onAWSError cfg u s from rfl,
            onAWSError_of_threshold hth]
          intro x hx
          simp only [List.mem_append, List.mem_singleton] at hx
          rcases hx with hx | hx
          · exact h2 x hx
          · subst hx
            unfold pauseMs
            omega
      · refine ih _ ?_ ?_ hrest
        · rw [show awsStep cfg s (u, AwsEv.err) = onAWSError cfg u s from rfl,
            onAWSError_of_lt (by omega)]
          exact h1
        · rw [show awsStep cfg s (u, AwsEv.err) = onAWSError cfg u s from rfl,
            onAWSError_of_lt (by omega)]
          exact h2
    | succ =>
      exact ih _ h1 h2 hrest
    | fire =>
      have hnot : u ∉ s.timers := by
        intro hmem
        have := h2 u hmem
        omega
      have hstep : awsStep cfg s (u, AwsEv.fire) = s := by
        show (if u ∈ s.timers then firePauseTimer u s else s) = s
        rw [if_neg hnot]
      rw [hstep]
      exact ih s h1 h2 hrest

theorem no_pause_below_threshold (cfg : SrvConfig) :
    ∀ (times : List Nat) (s : AwsState), s.awsPaused = false →
      s.awsErrors + times.length < cfg.errorsBeforePausing →
      (awsRun cfg (times.map (fun u => (u, AwsEv.err))) s).awsPaused = false := by
  intro times
  induction times with
  | nil => intro s h _; exact h
  | cons u rest ih =>
    intro s h1 h2
    rw [List.map_cons, awsRun_cons]
    show (awsRun cfg (rest.map (fun u => (u, AwsEv.err)))
      (onAWSError cfg u s)).awsPaused = false
    simp only [List.length_cons] at h2
    rw [onAWSError_of_lt (by omega)]
    exact ih _ h1 (by simp; omega)

/-- Counterexample to C4: with errorsBeforePausing = 1 and pauseMinutes = 1,
an error at 0 pauses and schedules a timer for 60000; an error at 10000 while
paused schedules a second timer for 70000 without cancelling the first; the
first timer fires at 60000 and unpauses; an error at 65000 re-enters the
pause; the leftover second timer fires at 70000 and ends that pause after
only 5000 ms, i.e. before pauseMinutes have elapsed. -/
theorem pause_duration_counterexample :
    Chrono [(0, .err), (10000, .err), (60000, .fire), (65000, .err),
      (70000, .fire)] ∧
    (awsRun ⟨false, 1, 1, 0, true, ⟨true, 1⟩, ⟨true, 10, 100⟩⟩
      [(0, .err), (10000, .err), (60000, .fire)] AwsState.init).awsPaused
      = false ∧
    (awsRun ⟨false, 1, 1, 0, true, ⟨true, 1⟩, ⟨true, 10, 100⟩⟩
      [(0, .err), (10000, .err), (60000, .fire), (65000, .err)]
      AwsState.init).awsPaused = true ∧
    (awsRun ⟨false, 1, 1, 0, true, ⟨true, 1⟩, ⟨true, 10, 100⟩⟩
      [(0, .err), (10000, .err), (60000, .fire), (65000, .err), (70000, .fire)]
      AwsState.init).awsPaused = false ∧
    70000 < 65000 + pauseMs ⟨false, 1, 1, 0, true, ⟨true, 1⟩, ⟨true, 10, 100⟩⟩ := by
  refine ⟨?_, ?_, ?_, ?_, ?_⟩ <;> decide

/-- Claim C4 (amended): after errorsBeforePausing consecutive connectivity
failures the paused state becomes true; a pause entered while no earlier
pause timer is pending (in particular the first pause) remains for at least
pauseMinutes; a success resets the consecutive-failure counter to zero
without changing the paused flag, and fewer than errorsBeforePausing
failures after a reset never pause.  (Failures while a timer is pending
schedule extra timers instead of restarting the pause; a leftover extra
timer can end a later pause early, which is the corrected part.) -/
theorem pause_controller_behavior (cfg : SrvConfig)
    (hth : 1 ≤ cfg.errorsBeforePausing) :
    (∀ (times : List Nat) (s : AwsState), s.awsErrors = 0 →
        cfg.errorsBeforePausing ≤ times.length →
        (awsRun cfg (times.map (fun u => (u, AwsEv.err))) s).awsPaused
          = true) ∧
    (∀ (s : AwsState) (t : Nat) (tr : List (Nat × AwsEv)),
        s.timers = [] → cfg.errorsBeforePausing ≤ s.awsErrors + 1 →
        (∀ ev ∈ tr, t ≤ ev.1 ∧ ev.1 < t + pauseMs cfg) →
        (awsRun cfg tr (onAWSError cfg t s)).awsPaused = true) ∧
    (∀ s : AwsState, (onAWSSuccess s).awsErrors = 0 ∧
        (onAWSSuccess s).awsPaused = s.awsPaused) ∧
    (∀ (times : List Nat) (s : AwsState), s.awsPaused = false →
        s.awsErrors + times.length < cfg.errorsBeforePausing →
        (awsRun cfg (times.map (fun u => (u, AwsEv.err))) s).awsPaused
          = false) := by
  refine ⟨?_, ?_, ?_, ?_⟩
  · intro times s hz hlen
    exact paused_after_threshold_errors cfg hth times s hz hlen
  · intro s t tr htimers hcross hev
    refine (paused_persists cfg t tr (onAWSError cfg t s) ?_ ?_ hev).1
    · rw [onAWSError_of_threshold hcross]
    · rw [onAWSError_of_threshold hcross, htimers]
      intro x hx
      simp only [List.nil_append, List.mem_singleton] at hx
      subst hx
      unfold pauseMs
      omega
  · intro s
    exact ⟨rfl, rfl⟩
  · intro times s h1 h2
    exact no_pause_below_threshold cfg times s h1 h2

/-- Witness for the amended C4: a single error with threshold 1 pauses; the
pause survives a further error and an off-schedule fire attempt before the
deadline; a success resets the counter; one error below threshold 2 does not
pause. -/
theorem pause_controller_behavior_witness :
    (awsRun ⟨false, 1, 1, 0, true, ⟨true, 1⟩, ⟨true, 10, 100⟩⟩
      [(5, .err)] AwsState.init).awsPaused = true ∧
    (awsRun ⟨false, 1, 1, 0, true, ⟨true, 1⟩, ⟨true, 10, 100⟩⟩
      [(100, .err), (59999, .fire)]
      (onAWSError ⟨false, 1, 1, 0, true, ⟨true, 1⟩, ⟨true, 10, 100⟩⟩ 0
        AwsState.init)).awsPaused = true ∧
    (onAWSSuccess ⟨3, true, [7]⟩).awsErrors = 0 ∧
    (awsRun ⟨false, 2, 1, 0, true, ⟨true, 1⟩, ⟨true, 10, 100⟩⟩
      [(5, .err)] AwsState.init).awsPaused = false := by
  have h := pause_controller_behavior
    ⟨false, 1, 1, 0, true, ⟨true, 1⟩, ⟨true, 10, 100⟩⟩ (by decide)
  have h2 := pause_controller_behavior
    ⟨false, 2, 1, 0, true, ⟨true, 1⟩, ⟨true, 10, 100⟩⟩ (by decide)
  refine ⟨?_, ?_, ?_, ?_⟩
  · have := h.1 [5] AwsState.init (by decide) (by decide)
    simpa using this
  · have := h.2.1 AwsState.init 0 [(100, .err), (59999, .fire)] (by decide)
      (by decide) (by decide)
    simpa using this
  · exact (h.2.2.1 ⟨3, true, [7]⟩).1
  · have := h2.2.2.2 [5] AwsState.init (by decide) (by decide)
    simpa using this

theorem status_of_notFound (cfg : SrvConfig) (e : AwsErr)
    (h : e.statusCode = some 404) :
    getHttpResponseStatusCode e 404 cfg = 404 := by
  unfold getHttpResponseStatusCode
  by_cases hi : shouldIgnoreError e cfg = true <;>
    simp [hi, h, orNotFound]

theorem errorResponse_notFound (cfg : SrvConfig) (e : AwsErr)
    (h : e.statusCode = some 404) :
    errorResponse e 404 cfg = ⟨404, .errJson e⟩ := by
  unfold errorResponse
  rw [status_of_notFound cfg e h]

/-- Counterexample to C5: a HEAD resolution failing with status 404 does not
reset the consecutive-failure counter — it increments it (only the GET
handler special-cases 404). -/
theorem head_notfound_counts_counterexample :
    (serverStepO ⟨false, 5, 1, 0, true, ⟨true, 1⟩, ⟨true, 10, 100⟩⟩
        (ServerState.init ⟨false, 5, 1, 0, true, ⟨true, 1⟩, ⟨true, 10, 100⟩⟩)
        (.resHead 0 (some ⟨some 404, false⟩))).1.aws.awsErrors = 1 ∧
    (1 : Nat) ≠ 0 := by
  decide

/-- Claim C5 (amended): a backend failure with status 404 resets the
consecutive-failure counter only on the GET path; the HEAD and DELETE
handlers route every failure, 404 included, through onAWSError, incrementing
the counter; in all three handlers the 404 is surfaced to the client as 404
with the serialized error. -/
theorem notfound_classification (cfg : SrvConfig) (st : ServerState)
    (now : Nat) (k : String) (e : AwsErr) (h : e.statusCode = some 404) :
    ((serverStepO cfg st (.resGet now k (.error e))).1.aws.awsErrors = 0 ∧
      (serverStepO cfg st (.resGet now k (.error e))).2.response
        = some ⟨404, .errJson e⟩) ∧
    ((serverStepO cfg st (.resHead now (some e))).1.aws.awsErrors
        = st.aws.awsErrors + 1 ∧
      (serverStepO cfg st (.resHead now (some e))).2.response
        = some ⟨404, .errJson e⟩) ∧
    ((serverStepO cfg st (.resDelete now (some e))).1.aws.awsErrors
        = st.aws.awsErrors + 1 ∧
      (serverStepO cfg st (.resDelete now (some e))).2.response
        = some ⟨404, .errJson e⟩) := by
  refine ⟨⟨?_, ?_⟩, ⟨?_, ?_⟩, ⟨?_, ?_⟩⟩
  · show (if e.statusCode = some 404 then onAWSSuccess st.aws
      else onAWSError cfg now st.aws).awsErrors = 0
    rw [if_pos h]
    rfl
  · show some (errorResponse e 404 cfg) = some ⟨404, .errJson e⟩
    rw [errorResponse_notFound cfg e h]
  · exact onAWSError_awsErrors cfg now st.aws
  · show some (errorResponse e 404 cfg) = some ⟨404, .errJson e⟩
    rw [errorResponse_notFound cfg e h]
  · exact onAWSError_awsErrors cfg now st.aws
  · show some (errorResponse e 404 cfg) = some ⟨404, .errJson e⟩
    rw [errorResponse_notFound cfg e h]

/-- Witness for the amended C5 at a concrete 404 error. -/
theorem notfound_classification_witness :
    (serverStepO ⟨false, 5, 1, 0, true, ⟨true, 1⟩, ⟨true, 10, 100⟩⟩
        (ServerState.init ⟨false, 5, 1, 0, true, ⟨true, 1⟩, ⟨true, 10, 100⟩⟩)
        (.resGet 0 "x" (.error ⟨some 404, false⟩))).1.aws.awsErrors = 0 ∧
    (serverStepO ⟨false, 5, 1, 0, true, ⟨true, 1⟩, ⟨true, 10, 100⟩⟩
        (ServerState.init ⟨false, 5, 1, 0, true, ⟨true, 1⟩, ⟨true, 10, 100⟩⟩)
        (.resDelete 0 (some ⟨some 404, false⟩))).1.aws.awsErrors = 1 := by
  have h := notfound_classification
    ⟨false, 5, 1, 0, true, ⟨true, 1⟩, ⟨true, 10, 100⟩⟩
    (ServerState.init ⟨false, 5, 1, 0, true, ⟨true, 1⟩, ⟨true, 10, 100⟩⟩)
    0 "x" ⟨some 404, false⟩ rfl
  exact ⟨h.1.1, h.2.2.1⟩

/-- Claim C9: while the backend is paused, a GET for a non-reserved key that
is not resident in the Content Cache is answered 404 with no backend call and
no state mutation at all (the paths "ping" and "shutdown" are reserved by the
dispatcher before the key lookup, claim C10). -/
theorem paused_get_miss (cfg : SrvConfig) (st : ServerState) (k : String)
    (hp : st.aws.awsPaused = true) (hc : st.cache.contains k = false)
    (h1 : k ≠ "ping") (h2 : k ≠ "shutdown") :
    serverStepO cfg st (.reqGet k) = (st, ⟨some ⟨404, .empty⟩, []⟩) := by
  show stepGet st k = _
  unfold stepGet handleGetCore
  rw [if_neg h1, if_neg h2, if_neg (by simp [hc]), if_pos hp]

/-- Witness for C9: a paused server with an empty cache answers a GET for a
missing key with 404 and no backend call. -/
theorem paused_get_miss_witness :
    serverStepO ⟨false, 5, 1, 0, true, ⟨true, 1⟩, ⟨true, 10, 100⟩⟩
        ⟨Cache.init ⟨true, 10, 100⟩, ⟨1, true, [60000]⟩, 0, [], [], true⟩
        (.reqGet "missing-key")
      = (⟨Cache.init ⟨true, 10, 100⟩, ⟨1, true, [60000]⟩, 0, [], [], true⟩,
         ⟨some ⟨404, .empty⟩, []⟩) :=
  paused_get_miss ⟨false, 5, 1, 0, true, ⟨true, 1⟩, ⟨true, 10, 100⟩⟩
    ⟨Cache.init ⟨true, 10, 100⟩, ⟨1, true, [60000]⟩, 0, [], [], true⟩
    "missing-key" (by decide) (by decide) (by decide) (by decide)

/-- Claim C10: the paths "ping" and "shutdown" are reserved: for every server
state a GET on them returns 200 with body "pong" (resp. "shutting down")
without consulting the Content Cache or issuing any backend call (so an
object stored under one of those keys is unreachable through GET); the
shutdown path additionally purges the staging area and stops the process. -/
theorem reserved_paths (cfg : SrvConfig) (st : ServerState) :
    serverStepO cfg st (.reqGet "ping")
      = (st, ⟨some ⟨200, .str "pong"⟩, []⟩) ∧
    serverStepO cfg st (.reqGet "shutdown")
      = ({ st with staged := [], inflight := [], pendingUploadBytes := 0,
                   alive := false },
         ⟨some ⟨200, .str "shutting down"⟩, []⟩) := by
  constructor
  · show stepGet st "ping" = _
    unfold stepGet handleGetCore
    rw [if_pos rfl]
  · show stepGet st "shutdown" = _
    unfold stepGet handleGetCore
    rw [if_neg (by decide), if_pos rfl]

theorem get_fst_of_lookup {c : Cache} {k : String} {v : Buffer}
    (h : lookupKey k c.nodes = some v) : (c.get k).1 = some v := by
  unfold Cache.get
  rw [h]

theorem lookup_maybeAdd_self {c : Cache} {k : String} {v : Buffer}
    (hen : c.config.enabled = true)
    (hv : v.length < c.config.maxEntrySizeBytes) :
    lookupKey k (c.maybeAdd k v).nodes = some v := by
  rw [maybeAdd_nodes_of_fits hen hv]
  exact lookupKey_cons_self k v _

theorem handlePutSync_fst {cfg : SrvConfig} {c : Cache} {p : Bool}
    {k : String} {v : Buffer} (hk : k ≠ "") :
    (handlePutSync cfg c p k v).1 = c.maybeAdd k v := by
  unfold handlePutSync
  rw [if_neg hk]
  by_cases h1 : p = true
  · rw [if_pos h1]
  · rw [if_neg h1]
    by_cases h2 : cfg.maxEntrySizeBytes ≠ 0 ∧ cfg.maxEntrySizeBytes < v.length
    · rw [if_pos h2]
    · rw [if_neg h2]

/-- Counterexample to C1: in the disk-staged asynchronous server, an admitted
PUT (200 sent immediately, backend upload started) does not populate the
Content Cache: the key is not resident afterwards, and a GET issued before
the upload resolves goes to the backend instead of being served "hello" from
the cache. -/
theorem put_populates_cache_counterexample :
    (serverStepO ⟨false, 5, 1, 0, true, ⟨true, 10⟩, ⟨true, 100, 1000⟩⟩
        (ServerState.init ⟨false, 5, 1, 0, true, ⟨true, 10⟩, ⟨true, 100, 1000⟩⟩)
        (.reqPut "abc" 5)).2
      = ⟨some ⟨200, .num 5⟩, [.uploadObject "abc" 5]⟩ ∧
    (serverStepO ⟨false, 5, 1, 0, true, ⟨true, 10⟩, ⟨true, 100, 1000⟩⟩
        (ServerState.init ⟨false, 5, 1, 0, true, ⟨true, 10⟩, ⟨true, 100, 1000⟩⟩)
        (.reqPut "abc" 5)).1.cache.contains "abc" = false ∧
    (serverStepO ⟨false, 5, 1, 0, true, ⟨true, 10⟩, ⟨true, 100, 1000⟩⟩
        (serverStep ⟨false, 5, 1, 0, true, ⟨true, 10⟩, ⟨true, 100, 1000⟩⟩
          (ServerState.init ⟨false, 5, 1, 0, true, ⟨true, 10⟩, ⟨true, 100, 1000⟩⟩)
          (.reqPut "abc" 5))
        (.reqGet "abc")).2
      = ⟨none, [.getObject "abc"]⟩ := by
  decide

/-- Claim C1 (amended): in the asynchronous disk-staged server, a PUT never
mutates the Content Cache, so the subsequent GET is served by a backend call
rather than from the cache; in the earlier synchronous server the PUT handler
populates the cache with the body before responding (when the cache is
enabled and the body is strictly below maxEntrySizeBytes), so a subsequent
GET for the key is a cache hit returning exactly that body. -/
theorem put_cache_population (cfg : SrvConfig) :
    (∀ (st : ServerState) (k : String) (n : Nat),
        (serverStep cfg st (.reqPut k n)).cache = st.cache) ∧
    (∀ (c : Cache) (p p2 : Bool) (k : String) (v : Buffer),
        k ≠ "" → k ≠ "ping" → k ≠ "shutdown" →
        c.config.enabled = true → v.length < c.config.maxEntrySizeBytes →
        (handlePutSync cfg c p k v).1.contains k = true ∧
        (handleGetCore (handlePutSync cfg c p k v).1 p2 k).2 = .hit (some v)) := by
  constructor
  · intro st k n
    show (stepPut cfg st k n).1.cache = st.cache
    unfold stepPut
    by_cases h1 : k = ""
    · rw [if_pos h1]
    · rw [if_neg h1]
      by_cases h2 : stagedHas st.staged k = true
      · rw [if_pos h2]
      · rw [if_neg h2]
        by_cases h3 : st.aws.awsPaused = true
        · rw [if_pos h3]
        · rw [if_neg h3]
          by_cases h4 : cfg.maxEntrySizeBytes ≠ 0 ∧ cfg.maxEntrySizeBytes < n
          · rw [if_pos h4]
          · rw [if_neg h4]
            by_cases h5 : cfg.asyncUpload.maxPendingUploadMB * 1024 * 1024
                < st.pendingUploadBytes + n
            · rw [if_pos h5]
            · rw [if_neg h5]
  · intro c p p2 k v hk hping hshut hen hv
    rw [handlePutSync_fst hk]
    have hlook : lookupKey k (c.maybeAdd k v).nodes = some v :=
      lookup_maybeAdd_self hen hv
    have hcon : (c.maybeAdd k v).contains k = true := by
      unfold Cache.contains
      rw [hlook]
      rfl
    refine ⟨hcon, ?_⟩
    unfold handleGetCore
    rw [if_neg hping, if_neg hshut, if_pos hcon]
    show GetAction.hit ((c.maybeAdd k v).get k).1 = .hit (some v)
    rw [get_fst_of_lookup hlook]

/-- Witness for the amended C1: the async PUT leaves the cache untouched; the
synchronous PUT of a 3-byte body makes the following GET a cache hit with
that body. -/
theorem put_cache_population_witness :
    (serverStep ⟨false, 5, 1, 0, true, ⟨true, 10⟩, ⟨true, 100, 1000⟩⟩
        (ServerState.init ⟨false, 5, 1, 0, true, ⟨true, 10⟩, ⟨true, 100, 1000⟩⟩)
        (.reqPut "abc" 5)).cache
      = (ServerState.init ⟨false, 5, 1, 0, true, ⟨true, 10⟩,
          ⟨true, 100, 1000⟩⟩).cache ∧
    (handleGetCore
        (handlePutSync ⟨false, 5, 1, 0, true, ⟨true, 10⟩, ⟨true, 100, 1000⟩⟩
          (Cache.init ⟨true, 10, 100⟩) false "abc" [1, 2, 3]).1
        false "abc").2 = .hit (some [1, 2, 3]) := by
  have h := put_cache_population ⟨false, 5, 1, 0, true, ⟨true, 10⟩, ⟨true, 100, 1000⟩⟩
  refine ⟨h.1 _ "abc" 5, ?_⟩
  exact ((h.2 (Cache.init ⟨true, 10, 100⟩) false false "abc" [1, 2, 3]
    (by decide) (by decide) (by decide) (by decide) (by decide))).2

/-- Claim C7: a PUT for a fresh non-root key whose known size trips the
maxEntrySizeBytes check (when nonzero) or would overflow the pending-bytes
ceiling issues no backend call, leaves no staged copy behind (the staged file
is written and immediately discarded), changes no other state, and still
answers the client 200. -/
theorem oversized_put_rejected (cfg : SrvConfig) (st : ServerState)
    (k : String) (n : Nat) (hk : k ≠ "")
    (hs : stagedHas st.staged k = false)
    (hover : (cfg.maxEntrySizeBytes ≠ 0 ∧ cfg.maxEntrySizeBytes < n) ∨
      cfg.asyncUpload.maxPendingUploadMB * 1024 * 1024
        < st.pendingUploadBytes + n) :
    ((serverStepO cfg st (.reqPut k n)).2.response = some ⟨200, .num n⟩ ∨
      (serverStepO cfg st (.reqPut k n)).2.response = some ⟨200, .empty⟩) ∧
    (serverStepO cfg st (.reqPut k n)).2.calls = [] ∧
    (serverStepO cfg st (.reqPut k n)).1.staged = st.staged ∧
    (serverStepO cfg st (.reqPut k n)).1.inflight = st.inflight ∧
    (serverStepO cfg st (.reqPut k n)).1.pendingUploadBytes
      = st.pendingUploadBytes ∧
    (serverStepO cfg st (.reqPut k n)).1.cache = st.cache := by
  have hunlink : unlinkFile (stageFile st.staged k n) k = st.staged := by
    unfold unlinkFile stageFile
    exact eraseKey_cons_self k n st.staged
  have hred : serverStepO cfg st (.reqPut k n) = stepPut cfg st k n := rfl
  rw [hred]
  unfold stepPut
  rw [if_neg hk, if_neg (by simp [hs])]
  by_cases h3 : st.aws.awsPaused = true
  · rw [if_pos h3]
    exact ⟨Or.inr rfl, rfl, hunlink, rfl, rfl, rfl⟩
  · rw [if_neg h3]
    by_cases h4 : cfg.maxEntrySizeBytes ≠ 0 ∧ cfg.maxEntrySizeBytes < n
    · rw [if_pos h4]
      exact ⟨Or.inl rfl, rfl, hunlink, rfl, rfl, rfl⟩
    · rw [if_neg h4]
      have h5 : cfg.asyncUpload.maxPendingUploadMB * 1024 * 1024
          < st.pendingUploadBytes + n := by
        rcases hover with hover | hover
        · exact absurd hover h4
        · exact hover
      rw [if_pos h5]
      exact ⟨Or.inl rfl, rfl, hunlink, rfl, rfl, rfl⟩

/-- Witness for C7: a 1-byte PUT against a pending ceiling of 0 MB is
rejected from the pipeline but still answered 200 with no backend call. -/
theorem oversized_put_rejected_witness :
    ((serverStepO ⟨false, 5, 1, 0, true, ⟨true, 0⟩, ⟨true, 100, 1000⟩⟩
        (ServerState.init ⟨false, 5, 1, 0, true, ⟨true, 0⟩, ⟨true, 100, 1000⟩⟩)
        (.reqPut "big" 1)).2.response = some ⟨200, .num 1⟩ ∨
      (serverStepO ⟨false, 5, 1, 0, true, ⟨true, 0⟩, ⟨true, 100, 1000⟩⟩
        (ServerState.init ⟨false, 5, 1, 0, true, ⟨true, 0⟩, ⟨true, 100, 1000⟩⟩)
        (.reqPut "big" 1)).2.response = some ⟨200, .empty⟩) ∧
    (serverStepO ⟨false, 5, 1, 0, true, ⟨true, 0⟩, ⟨true, 100, 1000⟩⟩
        (ServerState.init ⟨false, 5, 1, 0, true, ⟨true, 0⟩, ⟨true, 100, 1000⟩⟩)
        (.reqPut "big" 1)).2.calls = [] := by
  have h := oversized_put_rejected
    ⟨false, 5, 1, 0, true, ⟨true, 0⟩, ⟨true, 100, 1000⟩⟩
    (ServerState.init ⟨false, 5, 1, 0, true, ⟨true, 0⟩, ⟨true, 100, 1000⟩⟩)
    "big" 1 (by decide) (by decide) (Or.inr (by decide))
  exact ⟨h.1, h.2.1⟩

theorem stagedHas_iff {st : List (String × Nat)} {k : String} :
    stagedHas st k = true ↔ k ∈ st.map Prod.fst := by
  unfold stagedHas
  rw [List.any_eq_true]
  constructor
  · rintro ⟨p, hp, hbeq⟩
    rw [beq_iff_eq] at hbeq
    exact hbeq ▸ List.mem_map_of_mem Prod.fst hp
  · intro hm
    rcases List.mem_map.mp hm with ⟨p, hp, hfst⟩
    exact ⟨p, hp, by rw [beq_iff_eq]; exact hfst⟩

theorem mem_eraseKey_of_ne {α : Type} {k : String} {p : String × α} :
    ∀ {l : List (String × α)}, p ∈ l → p.1 ≠ k → p ∈ eraseKey k l := by
  intro l
  induction l with
  | nil => intro hp _; cases hp
  | cons q rest ih =>
    intro hp hne
    rcases List.mem_cons.mp hp with h | h
    · subst h
      rw [eraseKey_cons_of_ne _ hne]
      exact List.mem_cons_self _ _
    · by_cases hq : q.1 = k
      · simp only [eraseKey, if_pos hq]
        exact h
      · rw [eraseKey_cons_of_ne _ hq]
        exact List.mem_cons_of_mem _ (ih h hne)

theorem stagedHas_eraseKey_of_ne {l : List (String × Nat)} {k k2 : String}
    (hne : k2 ≠ k) (h : stagedHas l k2 = true) :
    stagedHas (eraseKey k l) k2 = true := by
  rw [stagedHas_iff] at h ⊢
  rcases List.mem_map.mp h with ⟨p, hp, hfst⟩
  exact List.mem_map.mpr ⟨p, mem_eraseKey_of_ne hp (hfst ▸ hne), hfst⟩

theorem stagedHas_cons (q : String × Nat) (l : List (String × Nat))
    (k : String) : stagedHas (q :: l) k = (q.1 == k || stagedHas l k) := by
  simp [stagedHas]

theorem stagingInv_ite {c : Prop} [Decidable c] {a b : ServerState × Obs}
    (ha : StagingInv a.1) (hb : StagingInv b.1) :
    StagingInv (if c then a else b).1 := by
  by_cases h : c
  · rw [if_pos h]
    exact ha
  · rw [if_neg h]
    exact hb

theorem stagingInv_step (cfg : SrvConfig) {st : ServerState}
    (h : StagingInv st) (ev : SEvent) : StagingInv (serverStep cfg st ev) := by
  obtain ⟨hnd, hne, hinf, hsub⟩ := h
  cases ev with
  | reqGet k =>
    show StagingInv (stepGet st k).1
    unfold stepGet
    rcases hg : handleGetCore st.cache st.aws.awsPaused k with ⟨c2, act⟩
    cases act with
    | pong => exact ⟨hnd, hne, hinf, hsub⟩
    | shutdownAction =>
      refine ⟨by simp, by simp, by simp, by simp⟩
    | hit o => exact ⟨hnd, hne, hinf, hsub⟩
    | pausedMiss => exact ⟨hnd, hne, hinf, hsub⟩
    | backendGet => exact ⟨hnd, hne, hinf, hsub⟩
  | reqHead k =>
    show StagingInv (stepHead st k).1
    unfold stepHead
    by_cases h1 : st.cache.contains k = true
    · rw [if_pos h1]
      exact ⟨hnd, hne, hinf, hsub⟩
    · rw [if_neg h1]
      by_cases h2 : st.aws.awsPaused = true
      · rw [if_pos h2]
        exact ⟨hnd, hne, hinf, hsub⟩
      · rw [if_neg h2]
        exact ⟨hnd, hne, hinf, hsub⟩
  | reqDelete k => exact ⟨hnd, hne, hinf, hsub⟩
  | reqPut k n =>
    show StagingInv (stepPut cfg st k n).1
    unfold stepPut
    by_cases h1 : k = ""
    · rw [if_pos h1]
      exact ⟨hnd, hne, hinf, hsub⟩
    · rw [if_neg h1]
      by_cases h2 : stagedHas st.staged k = true
      · rw [if_pos h2]
        exact ⟨hnd, hne, hinf, hsub⟩
      · rw [if_neg h2]
        have hust : unlinkFile (stageFile st.staged k n) k = st.staged := by
          unfold unlinkFile stageFile
          exact eraseKey_cons_self k n st.staged
        have hknotin : k ∉ st.staged.map Prod.fst := by
          intro hmem
          exact h2 (stagedHas_iff.mpr hmem)
        have hinv2 : StagingInv
            { st with staged := stageFile st.staged k n,
                      pendingUploadBytes := st.pendingUploadBytes + n,
                      inflight := (k, n) :: st.inflight } := by
          refine ⟨?_, ?_, ?_, ?_⟩
          · show ((stageFile st.staged k n).map Prod.fst).Nodup
            unfold stageFile
            exact List.nodup_cons.mpr ⟨hknotin, hnd⟩
          · intro p hp
            rcases List.mem_cons.mp hp with hp | hp
            · subst hp
              exact h1
            · exact hne p hp
          · show (((k, n) :: st.inflight).map Prod.fst).Nodup
            refine List.nodup_cons.mpr ⟨?_, hinf⟩
            intro hmem
            rcases List.mem_map.mp hmem with ⟨p, hp, hfst⟩
            have := hsub p hp
            rw [hfst] at this
            exact h2 this
          · intro p hp
            show stagedHas (stageFile st.staged k n) p.1 = true
            unfold stageFile
            rw [stagedHas_cons]
            rcases List.mem_cons.mp hp with hp | hp
            · subst hp
              simp
            · rw [hsub p hp]
              simp
        by_cases h3 : st.aws.awsPaused = true
        · rw [if_pos h3, hust]
          exact ⟨hnd, hne, hinf, hsub⟩
        · rw [if_neg h3]
          by_cases h4 : cfg.maxEntrySizeBytes ≠ 0 ∧ cfg.maxEntrySizeBytes < n
          · rw [if_pos h4, hust]
            exact ⟨hnd, hne, hinf, hsub⟩
          · rw [if_neg h4]
            by_cases h5 : cfg.asyncUpload.maxPendingUploadMB * 1024 * 1024
                < st.pendingUploadBytes + n
            · rw [if_pos h5, hust]
              exact ⟨hnd, hne, hinf, hsub⟩
            · rw [if_neg h5]
              exact hinv2
  | resGet now k outcome =>
    show StagingInv (stepGetResolve cfg now st k outcome).1
    cases outcome with
    | ok v =>
      exact stagingInv_ite ⟨hnd, hne, hinf, hsub⟩ ⟨hnd, hne, hinf, hsub⟩
    | error e => exact ⟨hnd, hne, hinf, hsub⟩
  | resHead now outcome =>
    show StagingInv (stepHeadResolve cfg now st outcome).1
    cases outcome with
    | none => exact ⟨hnd, hne, hinf, hsub⟩
    | some e => exact ⟨hnd, hne, hinf, hsub⟩
  | resDelete now outcome =>
    show StagingInv (stepDeleteResolve cfg now st outcome).1
    cases outcome with
    | none => exact ⟨hnd, hne, hinf, hsub⟩
    | some e => exact ⟨hnd, hne, hinf, hsub⟩
  | resPut now k err =>
    show StagingInv (stepPutResolve cfg now st k err).1
    unfold stepPutResolve
    rcases hl : lookupKey k st.inflight with _ | n
    · exact ⟨hnd, hne, hinf, hsub⟩
    · refine ⟨?_, ?_, ?_, ?_⟩
      · show ((unlinkFile st.staged k).map Prod.fst).Nodup
        exact hnd.sublist (keys_eraseKey_subset k st.staged)
      · intro p hp
        exact hne p ((eraseKey_sublist k st.staged).subset hp)
      · show (((eraseKey k st.inflight)).map Prod.fst).Nodup
        exact hinf.sublist (keys_eraseKey_subset k st.inflight)
      · intro p hp
        obtain ⟨hpmem, hpne⟩ := mem_eraseKey hinf hp
        show stagedHas (unlinkFile st.staged k) p.1 = true
        unfold unlinkFile
        exact stagedHas_eraseKey_of_ne hpne (hsub p hpmem)
  | fire now => exact ⟨hnd, hne, hinf, hsub⟩
  | reqOther => exact ⟨hnd, hne, hinf, hsub⟩

theorem stagingInv_run (cfg : SrvConfig) (evs : List SEvent) :
    StagingInv (serverRun cfg evs) := by
  unfold serverRun
  have hgen : ∀ (l : List SEvent) (s : ServerState), StagingInv s →
      StagingInv (l.foldl (serverStep cfg) s) := by
    intro l
    induction l with
    | nil => intro s hs; exact hs
    | cons ev rest ih =>
      intro s hs
      exact ih _ (stagingInv_step cfg hs ev)
  refine hgen evs (ServerState.init cfg)
    ⟨List.nodup_nil, ?_, List.nodup_nil, ?_⟩
  · intro p hp
    cases hp
  · intro p hp
    cases hp

/-- Claim C8: in every reachable state of the asynchronous server, at most
one backend upload per key is in flight, and a PUT for a key whose upload is
already pending is answered 200 immediately, with no state change and no
second backend transfer. -/
theorem upload_dedup (cfg : SrvConfig) (evs : List SEvent) (k : String)
    (n n2 : Nat) (hmem : (k, n2) ∈ (serverRun cfg evs).inflight) :
    ((serverRun cfg evs).inflight.map Prod.fst).Nodup ∧
    serverStepO cfg (serverRun cfg evs) (.reqPut k n)
      = (serverRun cfg evs, ⟨some ⟨200, .empty⟩, []⟩) := by
  obtain ⟨hnd, hne, hinf, hsub⟩ := stagingInv_run cfg evs
  refine ⟨hinf, ?_⟩
  have hstaged : stagedHas (serverRun cfg evs).staged k = true :=
    hsub (k, n2) hmem
  have hk : k ≠ "" := by
    rcases List.mem_map.mp (stagedHas_iff.mp hstaged) with ⟨p, hp, hfst⟩
    exact hfst ▸ hne p hp
  show stepPut cfg (serverRun cfg evs) k n = _
  unfold stepPut
  rw [if_neg hk, if_pos hstaged]

/-- Witness for C8: after one accepted PUT of "a", a second PUT of "a" while
the upload is pending is deduplicated. -/
theorem upload_dedup_witness :
    ((serverRun ⟨false, 5, 1, 0, true, ⟨true, 10⟩, ⟨true, 100, 1000⟩⟩
        [.reqPut "a" 1]).inflight.map Prod.fst).Nodup ∧
    serverStepO ⟨false, 5, 1, 0, true, ⟨true, 10⟩, ⟨true, 100, 1000⟩⟩
        (serverRun ⟨false, 5, 1, 0, true, ⟨true, 10⟩, ⟨true, 100, 1000⟩⟩
          [.reqPut "a" 1])
        (.reqPut "a" 2)
      = (serverRun ⟨false, 5, 1, 0, true, ⟨true, 10⟩, ⟨true, 100, 1000⟩⟩
          [.reqPut "a" 1],
         ⟨some ⟨200, .empty⟩, []⟩) :=
  upload_dedup ⟨false, 5, 1, 0, true, ⟨true, 10⟩, ⟨true, 100, 1000⟩⟩
    [.reqPut "a" 1] "a" 2 1 (by decide)
